import Mathlib

set_option maxRecDepth 16000

/-!
Shallow embedding of `vot/region/raster.py` (region rasterization and
overlap computation of the VOT toolkit).

Conventions of the embedding:
* numpy integer/float values that are integral by construction are
  modelled as `Int`; the toolkit rounds rectangle and polygon data with
  `np.round` before it reaches the kernels (`_infer_meta`), so the
  kernels here take integer coordinates and the internal `np.round` of
  `rasterize_polygon` is the identity.
* floating point intermediate values (polygon scanline intercepts) are
  modelled exactly in `ℚ`; the store into the `int64` array `nodeX`
  truncates toward zero, as numpy's float-to-int64 cast does.
* a dense 2-D `uint8` array is a `Grid`: explicit height and width plus
  a total indexing function (reads outside the stored area never occur
  on the executed paths; writes are instrumented where a claim is about
  write safety).
* Python slice endpoints (used by the slice assignment in
  `rasterize_rectangle`) are modelled by `sliceIdx`, including the
  wrap-around of negative endpoints.
-/

/-- An axis-aligned integer box `(left, top, right, bottom)`, inclusive on
both ends, as the 4-tuples used throughout `raster.py`. -/
structure Bounds4 where
  left : Int
  top : Int
  right : Int
  bottom : Int
deriving DecidableEq, Repr

/-- A dense 2-D grid of unsigned byte values: `px r c` is the value at
row `r`, column `c`. -/
structure Grid where
  h : Nat
  w : Nat
  px : Nat → Nat → Nat

/-- Number of elements of the flattened (`ravel`-ed) grid. -/
def Grid.size (m : Grid) : Nat := m.h * m.w

/-- Row-major flattened read, `m.ravel()[i]` of numpy. -/
def ravelAt (m : Grid) (i : Nat) : Nat := m.px (i / m.w) (i % m.w)

/-- Effective index of a Python slice endpoint `v` for a dimension of
length `len` (step 1): negative endpoints count from the end and are
clamped at 0, positive ones are clamped at `len`. -/
def sliceIdx (len : Nat) (v : Int) : Nat :=
  if v < 0 then (v + len).toNat else min v.toNat len

/-- Whether index `i` belongs to the Python slice `[start:stop]` of a
dimension of length `len`. -/
def sliceMem (len : Nat) (start stop : Int) (i : Nat) : Bool :=
  sliceIdx len start ≤ i && i < sliceIdx len stop

/-- `rasterize_rectangle(data, bounds)` of `raster.py`: `data` is the
column vector `(x, y, width, height)`, `bounds` the target window.  The
slice assignment `mask[top:bottom+1, left:right+1] = 1` on the zero
array is rendered by `sliceMem` on both axes. -/
def rasterize_rectangle (x y w h : Int) (bounds : Bounds4) : Grid :=
  let width := (bounds.right - bounds.left + 1).toNat
  let height := (bounds.bottom - bounds.top + 1).toNat
  if x > bounds.right || x + w - 1 < bounds.left || y > bounds.bottom || y + h - 1 < bounds.top then
    ⟨height, width, fun _ _ => 0⟩
  else
    let left := max 0 (x - bounds.left)
    let top := max 0 (y - bounds.top)
    let right := min bounds.right (x + w - 1 - bounds.left)
    let bottom := min bounds.bottom (y + h - 1 - bounds.top)
    ⟨height, width, fun r c =>
      if sliceMem height top (bottom + 1) r && sliceMem width left (right + 1) c then 1 else 0⟩

example : (rasterize_rectangle 0 0 2 1 ⟨0, 0, 3, 1⟩).px 0 1 = 1 := by decide
example : (rasterize_rectangle 0 0 2 1 ⟨0, 0, 3, 1⟩).px 0 2 = 0 := by decide
example : (rasterize_rectangle (-6) 0 6 2 ⟨-6, 0, -1, 1⟩).px 0 0 = 0 := by decide

/-! ## `mask_bounds` and the per-variant bounds functions -/

/-- `np.iinfo(np.int32).max`, the sentinel of `mask_bounds`. -/
def II32MAX : Int := 2147483647

/-- `np.iinfo(np.int32).min`, the sentinel of `mask_bounds`. -/
def II32MIN : Int := -2147483648

/-- Running state of the `mask_bounds` scan. -/
structure MBState where
  top : Int
  bottom : Int
  left : Int
  right : Int
deriving DecidableEq, Repr

/-- All `(row, col)` pairs of a grid, in the nested-loop order of
`mask_bounds`. -/
def pixList (m : Grid) : List (Nat × Nat) :=
  (List.range m.h).flatMap fun i => (List.range m.w).map fun j => (i, j)

/-- Body of the `mask_bounds` double loop. -/
def maskBoundsStep (m : Grid) (st : MBState) (p : Nat × Nat) : MBState :=
  if m.px p.1 p.2 ≠ 0 then
    ⟨min st.top p.1, max st.bottom p.1, min st.left p.2, max st.right p.2⟩
  else st

/-- `mask_bounds(mask)` of `raster.py`: the tight box of set pixels as
`(left, top, right, bottom)`, or `(0, 0, 0, 0)` when no pixel is set. -/
def mask_bounds (m : Grid) : Bounds4 :=
  let st := (pixList m).foldl (maskBoundsStep m) ⟨II32MAX, II32MIN, II32MAX, II32MIN⟩
  if st.top = II32MAX then ⟨0, 0, 0, 0⟩
  else ⟨st.left, st.top, st.right, st.bottom⟩

/-- `_bounds_mask(a, o)` of `raster.py`: `mask_bounds` translated by the
mask's offset. -/
def bounds_mask (m : Grid) (o : Int × Int) : Bounds4 :=
  let b := mask_bounds m
  ⟨b.left + o.1, b.top + o.2, b.right + o.1, b.bottom + o.2⟩

/-- `_bounds_rectangle(a)` of `raster.py` (the `round` calls are the
identity on the pre-rounded integer data). -/
def bounds_rectangle (x y w h : Int) : Bounds4 :=
  ⟨x, y, x + w - 1, y + h - 1⟩

/-- `np.finfo(np.float32).max`, the sentinel of `_bounds_polygon`,
as an exact integer. -/
def FI32MAX : Int := 340282346638528859811704183484516925440

/-- `_bounds_polygon(a)` of `raster.py`: componentwise min/max fold of
the vertex coordinates against the float32 sentinels (the final
`round` calls are the identity on integer vertex data). -/
def bounds_polygon (pts : List (Int × Int)) : Bounds4 :=
  let st := pts.foldl
    (fun (st : MBState) p => ⟨min st.top p.2, max st.bottom p.2, min st.left p.1, max st.right p.1⟩)
    ⟨FI32MAX, -FI32MAX, FI32MAX, -FI32MAX⟩
  ⟨st.left, st.top, st.right, st.bottom⟩

example : mask_bounds ⟨2, 3, fun i j => if i = 1 && j ≥ 1 then 1 else 0⟩ = ⟨1, 1, 2, 1⟩ := by decide
example : mask_bounds ⟨2, 3, fun _ _ => 0⟩ = ⟨0, 0, 0, 0⟩ := by decide
example : bounds_mask ⟨2, 3, fun _ _ => 0⟩ (5, 7) = ⟨5, 7, 5, 7⟩ := by decide

/-! ## `copy_mask` -/

/-- Overwrite one cell of a grid's indexing function. -/
def setPx (g : Nat → Nat → Nat) (r c v : Nat) : Nat → Nat → Nat :=
  fun r' c' => if r' = r && c' = c then v else g r' c'

/-- Inner loop of `copy_mask`: row `i`, columns `j < tw`. -/
def copyMaskRow (m : Grid) (oxN oyN gxN gyN twN : Nat) (i : Nat)
    (g : Nat → Nat → Nat) : Nat → Nat → Nat :=
  (List.range twN).foldl (fun g j => setPx g (i + oyN) (j + oxN) (m.px (i + gyN) (j + gxN))) g

/-- `copy_mask(mask, offset, bounds)` of `raster.py`: copy the part of
the source mask that overlaps the target window into a fresh grid of
the window's size.  The intermediate quantities `tx, ty, ox, oy, gx,
gy, tw, th` are the source's; `ox, oy, gx, gy` are nonnegative by
construction (`tx ≥ bounds.left`, `tx ≥ offset.x`, …), so their `toNat`
images index the grids, and a nonpositive `tw`/`th` makes the
corresponding `range` empty exactly as Python's `range` does. -/
def copy_mask (m : Grid) (offset : Int × Int) (bounds : Bounds4) : Grid :=
  let tx := max offset.1 bounds.left
  let ty := max offset.2 bounds.top
  let ox := tx - bounds.left
  let oy := ty - bounds.top
  let gx := tx - offset.1
  let gy := ty - offset.2
  let tw := min (bounds.right + 1) (offset.1 + m.w) - tx
  let th := min (bounds.bottom + 1) (offset.2 + m.h) - ty
  let height := (bounds.bottom - bounds.top + 1).toNat
  let width := (bounds.right - bounds.left + 1).toNat
  ⟨height, width,
    (List.range th.toNat).foldl
      (fun g i => copyMaskRow m ox.toNat oy.toNat gx.toNat gy.toNat tw.toNat i g)
      (fun _ _ => 0)⟩

example :
    let m : Grid := ⟨2, 2, fun i j => 10 * i + j + 1⟩
    -- source occupies pixels [3,4]×[5,6]; window [4,6]×[4,6]
    let c := copy_mask m (3, 5) ⟨4, 4, 6, 6⟩
    (c.h = 3 ∧ c.w = 3 ∧ c.px 0 0 = 0 ∧ c.px 1 0 = 2 ∧ c.px 2 0 = 12 ∧ c.px 1 1 = 0
      ∧ c.px 2 1 = 0 ∧ c.px 0 2 = 0) := by decide

/-! ## `rasterize_polygon`

The scanline fill with even-odd parity.  The claims about this function
concern write safety, so the two kinds of stores are instrumented: a
store into the `nodeX` intercept array through `nodeWrite` and a store
into the pixel grid through `writePx` record an `oob` flag whenever the
index is outside the array.  Intercept values are computed exactly in
`ℚ`; the store into the `int64` array truncates toward zero. -/

/-- Truncation toward zero of a rational: numpy's cast of a float into
an `int64` array cell. -/
def qtrunc (q : ℚ) : Int := Int.tdiv q.num q.den

/-- The edge-crossing predicate of the node-building loop (five
disjuncts, verbatim from the source). -/
def crossCond (viy vjy pixelY : Int) : Bool :=
  (viy ≤ pixelY && vjy > pixelY) || (vjy ≤ pixelY && viy > pixelY) ||
  (viy < pixelY && vjy ≥ pixelY) || (vjy < pixelY && viy ≥ pixelY) ||
  (viy == vjy && viy == pixelY)

/-- X-intercept of edge `(vi, vj)` with scanline `pixelY`:
`polygon[i,0] + (pixelY - polygon[i,1]) / r * k` when the edge is not
horizontal, else `polygon[i,0]`. -/
def interceptX (vix viy vjx vjy pixelY : Int) : Int :=
  let r := vjy - viy
  let k := vjx - vix
  if r ≠ 0 then qtrunc ((vix : ℚ) + ((pixelY : ℚ) - (viy : ℚ)) / (r : ℚ) * (k : ℚ))
  else vix

/-- The `nodeX` intercept array with an out-of-range-store flag. -/
structure NodeArr where
  arr : List Int
  oob : Bool

/-- `nodeX[idx] = v`, flagging stores past the end of the array. -/
def nodeWrite (n : NodeArr) (idx : Nat) (v : Int) : NodeArr :=
  if idx < n.arr.length then ⟨n.arr.set idx v, n.oob⟩ else ⟨n.arr, true⟩

/-- One iteration of the node-building loop: state is
`(j, nodes, nodeX)` with `j` the previous vertex index. -/
def buildRowStep (poly : List (Int × Int)) (pixelY : Int)
    (st : Nat × Nat × NodeArr) (i : Nat) : Nat × Nat × NodeArr :=
  let vi := poly.getD i (0, 0)
  let vj := poly.getD st.1 (0, 0)
  if crossCond vi.2 vj.2 pixelY then
    (i, st.2.1 + 1, nodeWrite st.2.2 st.2.1 (interceptX vi.1 vi.2 vj.1 vj.2 pixelY))
  else (i, st.2.1, st.2.2)

/-- The node-building loop for one scanline: `j` starts at `count - 1`,
`nodeX` is the zero array of length `count`. -/
def buildRow (poly : List (Int × Int)) (count : Nat) (pixelY : Int) : Nat × NodeArr :=
  ((List.range count).foldl (buildRowStep poly pixelY)
    (count - 1, 0, ⟨List.replicate count 0, false⟩)).2

/-- Swap of the adjacent entries at positions `i`, `i + 1`. -/
def swapAdj : List Int → Nat → List Int
  | x :: y :: rest, 0 => y :: x :: rest
  | x :: rest, n + 1 => x :: swapAdj rest n
  | l, _ => l

/-- Number of inversions of a list, the termination measure of the
bubble sort. -/
def invCount : List Int → Nat
  | [] => 0
  | x :: xs => xs.countP (fun v => decide (v < x)) + invCount xs

theorem swapAdj_length (l : List Int) (i : Nat) : (swapAdj l i).length = l.length := by
  induction l generalizing i with
  | nil => cases i <;> rfl
  | cons x xs ih =>
    cases i with
    | zero => cases xs with
      | nil => rfl
      | cons y rest => rfl
    | succ n => simpa [swapAdj] using ih n

theorem countP_swapAdj (p : Int → Bool) (l : List Int) (i : Nat) :
    (swapAdj l i).countP p = l.countP p := by
  induction l generalizing i with
  | nil => cases i <;> rfl
  | cons x xs ih =>
    cases i with
    | zero => cases xs with
      | nil => rfl
      | cons y rest => simp [swapAdj, List.countP_cons]; omega
    | succ n => simp [swapAdj, List.countP_cons, ih n]

theorem invCount_swapAdj (l : List Int) (i : Nat) (h : i + 1 < l.length)
    (hgt : l.getD (i + 1) 0 < l.getD i 0) : invCount (swapAdj l i) < invCount l := by
  induction l generalizing i with
  | nil => simp at h
  | cons x xs ih =>
    cases i with
    | zero =>
      cases xs with
      | nil => simp at h
      | cons y rest =>
        have hyx : y < x := by simpa using hgt
        have e1 : List.countP (fun v => decide (v < x)) (y :: rest)
            = List.countP (fun v => decide (v < x)) rest + 1 :=
          List.countP_cons_of_pos _ _ (by simpa using hyx)
        have e2 : List.countP (fun v => decide (v < y)) (x :: rest)
            = List.countP (fun v => decide (v < y)) rest :=
          List.countP_cons_of_neg _ _ (by simp; omega)
        simp only [swapAdj, invCount, e1, e2]
        omega
    | succ n =>
      cases xs with
      | nil => simp at h
      | cons y rest =>
        have h' : n + 1 < (y :: rest).length := by
          simp only [List.length_cons] at h ⊢; omega
        have hgt' : (y :: rest).getD (n + 1) 0 < (y :: rest).getD n 0 := hgt
        have hlt := ih n h' hgt'
        simp only [invCount] at hlt
        simp only [swapAdj, invCount, countP_swapAdj]
        omega

/-- The in-place "bubble" sort of the source (a gnome sort): at
position `i`, swap a descending adjacent pair and step back, otherwise
step forward.  `i - 1` is `Nat` subtraction, which matches the
source's `if (i): i = i - 1` keeping `i` at 0. -/
def gnomeGo (a : List Int) (i : Nat) : List Int :=
  if h : i + 1 < a.length then
    if hgt : a.getD (i + 1) 0 < a.getD i 0 then gnomeGo (swapAdj a i) (i - 1)
    else gnomeGo a (i + 1)
  else a
termination_by (invCount a, a.length - i)
decreasing_by
  · exact Prod.Lex.left _ _ (invCount_swapAdj a i h hgt)
  · exact Prod.Lex.right _ (by omega)

/-- Pixel-grid state of the polygon fill, with an out-of-range-store
flag. -/
structure PolyState where
  px : Nat → Nat → Nat
  oob : Bool

/-- `mask[r, c] = 1`, flagging stores outside the grid. -/
def writePx (height width : Nat) (s : PolyState) (r : Nat) (c : Int) : PolyState :=
  if 0 ≤ c && c < (width : Int) && r < height then ⟨setPx s.px r c.toNat 1, s.oob⟩
  else ⟨s.px, true⟩

/-- The integers of Python's `range(a, b + 1)`. -/
def intRange (a b : Int) : List Int :=
  (List.range (b + 1 - a).toNat).map fun (k : Nat) => a + (k : Int)

/-- `for j in range(nodeX[i], nodeX[i+1] + 1): mask[pixelY, j] = 1`. -/
def writeSpan (height width : Nat) (r : Nat) (a b : Int) (s : PolyState) : PolyState :=
  (intRange a b).foldl (fun s j => writePx height width s r j) s

/-- The span-filling loop of one scanline.  The clamps
`max nodeX[i] 0` and `min nodeX[i+1] (width - 1)` are the source's
in-place clamping writes, kept as locals because the clamped entries
are never read again (the loop continues at `i + 2`). -/
def fillRowGo (height width nodes : Nat) (pixelY : Nat) (nx : List Int)
    (i : Nat) (s : PolyState) : PolyState :=
  if h : i + 1 < nodes then
    let a := nx.getD i 0
    let b := nx.getD (i + 1) 0
    if a ≥ (width : Int) then s
    else if a == b && i + 2 < nodes then fillRowGo height width nodes pixelY nx (i + 1) s
    else if b ≥ 0 then
      fillRowGo height width nodes pixelY nx (i + 2)
        (writeSpan height width pixelY (max a 0) (min b ((width : Int) - 1)) s)
    else fillRowGo height width nodes pixelY nx (i + 2) s
  else s
termination_by nodes - i

/-- One scanline of `rasterize_polygon`: build the intercepts, sort
them (the source sorts the first `nodes` entries of `nodeX` in place;
here the sorted prefix is taken, the tail is never read), fill. -/
def rasterRowPoly (polygon : List (Int × Int)) (count height width : Nat)
    (st : PolyState × Bool) (pixelY : Nat) : PolyState × Bool :=
  let bn := buildRow polygon count pixelY
  let sorted := gnomeGo (bn.2.arr.take bn.1) 0
  (fillRowGo height width bn.1 pixelY sorted 0 st.1, st.2 || bn.2.oob)

/-- Result of the instrumented polygon rasterization. -/
structure PolyResult where
  h : Nat
  w : Nat
  px : Nat → Nat → Nat
  oobPx : Bool
  oobNode : Bool

/-- `rasterize_polygon(data, bounds)` of `raster.py` (`np.round` on the
pre-rounded integer vertices is the identity; the subtraction of
`(bounds.left, bounds.top)` is the source's shift of the polygon into
window coordinates). -/
def rasterize_polygon (data : List (Int × Int)) (bounds : Bounds4) : PolyResult :=
  let count := data.length
  let width := (bounds.right - bounds.left + 1).toNat
  let height := (bounds.bottom - bounds.top + 1).toNat
  let polygon := data.map fun p => (p.1 - bounds.left, p.2 - bounds.top)
  let res := (List.range height).foldl (rasterRowPoly polygon count height width)
    (⟨fun _ _ => 0, false⟩, false)
  ⟨height, width, res.1.px, res.1.oob, res.2⟩

/-- The grid of the instrumented polygon rasterization. -/
def PolyResult.grid (r : PolyResult) : Grid := ⟨r.h, r.w, r.px⟩


/-! ## Regions, dispatch, and the overlap engine -/

/-- A region as handed to the kernels by `_infer_meta`: the variant tag
together with its (pre-rounded) data and, for masks, the offset.  The
fourth variant is `_TYPE_EMPTY`. -/
inductive Region where
  | rect (x y w h : Int)
  | poly (pts : List (Int × Int))
  | mask (m : Grid) (o : Int × Int)
  | empty

/-- `_region_bounds(a, t, o)` of `raster.py`. -/
def region_bounds : Region → Bounds4
  | .rect x y w h => bounds_rectangle x y w h
  | .poly pts => bounds_polygon pts
  | .mask m o => bounds_mask m o
  | .empty => ⟨0, 0, 0, 0⟩

/-- `_region_raster(a, bounds, t, o)` of `raster.py`. -/
def region_raster (r : Region) (bounds : Bounds4) : Grid :=
  match r with
  | .rect x y w h => rasterize_rectangle x y w h bounds
  | .poly pts => (rasterize_polygon pts bounds).grid
  | .mask m o => copy_mask m o bounds
  | .empty => ⟨(bounds.bottom - bounds.top + 1).toNat, (bounds.right - bounds.left + 1).toNat,
      fun _ _ => 0⟩

/-- One iteration of the pixel-counting loop of `_calculate_overlap`:
state is `(intersection, union_)`. -/
def countStep (m1 m2 : Grid) (st : Nat × Nat) (i : Nat) : Nat × Nat :=
  if ravelAt m1 i != 0 || ravelAt m2 i != 0 then
    (st.1 + (if ravelAt m1 i != 0 && ravelAt m2 i != 0 then 1 else 0), st.2 + 1)
  else st

/-- The counting iteration with the ignore mask: a nonzero ignore pixel
skips the pixel entirely. -/
def countStepIgnore (m1 m2 m3 : Grid) (st : Nat × Nat) (i : Nat) : Nat × Nat :=
  if ravelAt m3 i == 0 then countStep m1 m2 st i else st

/-- The two counting loops of `_calculate_overlap` over
`range(a1.size)`, selected by the presence of an ignore raster. -/
def overlapCounts (m1 m2 : Grid) (ig : Option Grid) : Nat × Nat :=
  match ig with
  | some m3 => (List.range m1.size).foldl (countStepIgnore m1 m2 m3) (0, 0)
  | none => (List.range m1.size).foldl (countStep m1 m2) (0, 0)

/-- The componentwise min/max union of the two regions' bounding
boxes, as computed by `_calculate_overlap`. -/
def union_bounds (r1 r2 : Region) : Bounds4 :=
  ⟨min (region_bounds r1).left (region_bounds r2).left,
   min (region_bounds r1).top (region_bounds r2).top,
   max (region_bounds r1).right (region_bounds r2).right,
   max (region_bounds r1).bottom (region_bounds r2).bottom⟩

/-- The rasterization window of `_calculate_overlap`: the union box,
clipped to `[0, width-1] × [0, height-1]` when a frame is supplied. -/
def raster_bounds_of (r1 r2 : Region) (bounds : Option (Int × Int)) : Bounds4 :=
  let u := union_bounds r1 r2
  match bounds with
  | some fr => ⟨max 0 u.left, max 0 u.top, min (fr.1 - 1) u.right, min (fr.2 - 1) u.bottom⟩
  | none => u

/-- The optional ignore raster of `_calculate_overlap`: an ignore
region of the empty variant is dropped, as by the
`it != _TYPE_EMPTY` test. -/
def ignore_raster_of (ignore : Option Region) (rb : Bounds4) : Option Grid :=
  match ignore with
  | some Region.empty => none
  | some ig => some (region_raster ig rb)
  | none => none

/-- The `(intersection, union_)` pair counted by `_calculate_overlap`
once the rasterization stage is reached. -/
def overlap_counts_of (r1 r2 : Region) (frame : Option (Int × Int))
    (ignore : Option Region) : Nat × Nat :=
  let rb := raster_bounds_of r1 r2 frame
  overlapCounts (region_raster r1 rb) (region_raster r2 rb) (ignore_raster_of ignore rb)

/-- `calculate_overlap(reg1, reg2, bounds, ignore)` of `raster.py`
(`_infer_meta` composed with `_calculate_overlap`; the `Region`
inductive already carries the variant tag and offset, and the result of
the float division of the two pixel counts is represented exactly in
`ℚ`). -/
def calculate_overlap (reg1 reg2 : Region) (bounds : Option (Int × Int))
    (ignore : Option Region) : ℚ :=
  let union := union_bounds reg1 reg2
  if union.left ≥ union.right ∨ union.top ≥ union.bottom then 1
  else
    let raster_bounds := raster_bounds_of reg1 reg2 bounds
    if raster_bounds.left ≥ raster_bounds.right ∨ raster_bounds.top ≥ raster_bounds.bottom then 0
    else
      let cnt := overlap_counts_of reg1 reg2 bounds ignore
      if cnt.2 > 0 then (cnt.1 : ℚ) / (cnt.2 : ℚ) else 0

/-- `calculate_overlaps(first, second, bounds, ignore)` of `raster.py`:
the `RegionException` raised on a length mismatch is an
`Except.error`; otherwise the pairwise overlaps in input order (the
comprehension enumerates `zip(first, second)` and indexes the ignore
list). -/
def calculate_overlaps (first second : List Region) (bounds : Option (Int × Int))
    (ignore : Option (List Region)) : Except String (List ℚ) :=
  if first.length ≠ second.length then Except.error "List not of the same size"
  else
    match ignore with
    | some ig =>
      if first.length ≠ ig.length then Except.error "List not of the same size"
      else Except.ok (((first.zip second).enum).map fun p =>
        calculate_overlap p.2.1 p.2.2 bounds (some (ig.getD p.1 Region.empty)))
    | none => Except.ok ((first.zip second).map fun p => calculate_overlap p.1 p.2 bounds none)

-- spec §8 "Rectangle exactness": intersection 25, union 175
example :
    (overlapCounts
      (region_raster (.rect 0 0 10 10) (raster_bounds_of (.rect 0 0 10 10) (.rect 5 5 10 10) none))
      (region_raster (.rect 5 5 10 10) (raster_bounds_of (.rect 0 0 10 10) (.rect 5 5 10 10) none))
      none) = (25, 175) := by decide
-- self-overlap counts of a rectangle at nonnegative coordinates
example :
    (overlapCounts
      (region_raster (.rect 2 3 5 4) (raster_bounds_of (.rect 2 3 5 4) (.rect 2 3 5 4) none))
      (region_raster (.rect 2 3 5 4) (raster_bounds_of (.rect 2 3 5 4) (.rect 2 3 5 4) none))
      none) = (20, 20) := by decide
-- the C1 failing input: the rasterization of a rectangle in negative x
-- over its own bounding box is empty, so both counts are 0
example :
    (overlapCounts
      (region_raster (.rect (-6) 0 6 2) (raster_bounds_of (.rect (-6) 0 6 2) (.rect (-6) 0 6 2) none))
      (region_raster (.rect (-6) 0 6 2) (raster_bounds_of (.rect (-6) 0 6 2) (.rect (-6) 0 6 2) none))
      none) = (0, 0) := by decide

/-! ## Generic fold lemmas -/

theorem foldl_inv {α β : Type} {P : α → Prop} (f : α → β → α) (l : List β) (init : α)
    (h0 : P init) (hstep : ∀ a b, b ∈ l → P a → P (f a b)) : P (l.foldl f init) := by
  induction l generalizing init with
  | nil => exact h0
  | cons x xs ih =>
    exact ih (f init x) (hstep init x (List.mem_cons_self x xs) h0)
      (fun a b hb ha => hstep a b (List.mem_cons_of_mem x hb) ha)

theorem foldl_congr_mem {α β : Type} (f g : α → β → α) (l : List β) (init : α)
    (h : ∀ a b, b ∈ l → f a b = g a b) : l.foldl f init = l.foldl g init := by
  induction l generalizing init with
  | nil => rfl
  | cons x xs ih =>
    rw [List.foldl_cons, List.foldl_cons, h init x (List.mem_cons_self x xs)]
    exact ih _ (fun a b hb => h a b (List.mem_cons_of_mem x hb))

/-! ## Facts about the counting loops -/

theorem countStep_le (m1 m2 : Grid) (st : Nat × Nat) (i : Nat) (h : st.1 ≤ st.2) :
    (countStep m1 m2 st i).1 ≤ (countStep m1 m2 st i).2 := by
  unfold countStep
  split
  · split <;> simp <;> omega
  · exact h

theorem countStepIgnore_le (m1 m2 m3 : Grid) (st : Nat × Nat) (i : Nat) (h : st.1 ≤ st.2) :
    (countStepIgnore m1 m2 m3 st i).1 ≤ (countStepIgnore m1 m2 m3 st i).2 := by
  unfold countStepIgnore
  split
  · exact countStep_le m1 m2 st i h
  · exact h

theorem overlapCounts_le (m1 m2 : Grid) (ig : Option Grid) :
    (overlapCounts m1 m2 ig).1 ≤ (overlapCounts m1 m2 ig).2 := by
  unfold overlapCounts
  cases ig with
  | some m3 =>
    exact foldl_inv (P := fun st => st.1 ≤ st.2) _ _ ((0, 0) : Nat × Nat) (Nat.le_refl 0)
      (fun a b _ ha => countStepIgnore_le m1 m2 m3 a b ha)
  | none =>
    exact foldl_inv (P := fun st => st.1 ≤ st.2) _ _ ((0, 0) : Nat × Nat) (Nat.le_refl 0)
      (fun a b _ ha => countStep_le m1 m2 a b ha)

theorem countStep_comm (m1 m2 : Grid) (st : Nat × Nat) (i : Nat) :
    countStep m1 m2 st i = countStep m2 m1 st i := by
  unfold countStep
  by_cases h1 : ravelAt m1 i = 0 <;> by_cases h2 : ravelAt m2 i = 0 <;> simp [h1, h2]

theorem countStepIgnore_comm (m1 m2 m3 : Grid) (st : Nat × Nat) (i : Nat) :
    countStepIgnore m1 m2 m3 st i = countStepIgnore m2 m1 m3 st i := by
  unfold countStepIgnore
  rw [countStep_comm]

theorem overlapCounts_comm (m1 m2 : Grid) (ig : Option Grid) (hsz : m1.size = m2.size) :
    overlapCounts m1 m2 ig = overlapCounts m2 m1 ig := by
  unfold overlapCounts
  cases ig with
  | some m3 =>
    rw [hsz]
    exact foldl_congr_mem _ _ _ _ (fun a b _ => countStepIgnore_comm m1 m2 m3 a b)
  | none =>
    rw [hsz]
    exact foldl_congr_mem _ _ _ _ (fun a b _ => countStep_comm m1 m2 a b)

/-! ## Dimensions of the rasters -/

theorem region_raster_h (r : Region) (b : Bounds4) :
    (region_raster r b).h = (b.bottom - b.top + 1).toNat := by
  cases r with
  | rect x y w h =>
    simp only [region_raster, rasterize_rectangle]
    split <;> rfl
  | poly pts => rfl
  | mask m o => rfl
  | empty => rfl

theorem region_raster_w (r : Region) (b : Bounds4) :
    (region_raster r b).w = (b.right - b.left + 1).toNat := by
  cases r with
  | rect x y w h =>
    simp only [region_raster, rasterize_rectangle]
    split <;> rfl
  | poly pts => rfl
  | mask m o => rfl
  | empty => rfl

theorem region_raster_size (r1 r2 : Region) (b : Bounds4) :
    (region_raster r1 b).size = (region_raster r2 b).size := by
  unfold Grid.size
  rw [region_raster_h, region_raster_w, region_raster_h, region_raster_w]

theorem union_bounds_comm (r1 r2 : Region) : union_bounds r1 r2 = union_bounds r2 r1 := by
  unfold union_bounds
  rw [min_comm, max_comm, min_comm (region_bounds r1).top, max_comm (region_bounds r1).bottom]

theorem raster_bounds_of_comm (r1 r2 : Region) (frame : Option (Int × Int)) :
    raster_bounds_of r1 r2 frame = raster_bounds_of r2 r1 frame := by
  unfold raster_bounds_of
  rw [union_bounds_comm]

/-! ## Claims -/

/-- C4: whenever the componentwise union of the two regions' bounding
boxes satisfies `left ≥ right` or `top ≥ bottom`, the overlap is
exactly 1.0, before any frame clipping or ignore handling (the result
does not depend on the frame or the ignore region); in particular the
overlap of two empty-variant regions is 1.0 for every frame and every
ignore shape. -/
theorem c4_degenerate_union_overlap_one :
    (∀ (r1 r2 : Region) (frame : Option (Int × Int)) (ignore : Option Region),
      ((union_bounds r1 r2).left ≥ (union_bounds r1 r2).right ∨
        (union_bounds r1 r2).top ≥ (union_bounds r1 r2).bottom) →
      calculate_overlap r1 r2 frame ignore = 1)
    ∧ ∀ (frame : Option (Int × Int)) (ignore : Option Region),
      calculate_overlap Region.empty Region.empty frame ignore = 1 := by
  have key : ∀ (r1 r2 : Region) (frame : Option (Int × Int)) (ignore : Option Region),
      ((union_bounds r1 r2).left ≥ (union_bounds r1 r2).right ∨
        (union_bounds r1 r2).top ≥ (union_bounds r1 r2).bottom) →
      calculate_overlap r1 r2 frame ignore = 1 := by
    intro r1 r2 frame ignore hdeg
    simp only [calculate_overlap]
    rw [if_pos hdeg]
  exact ⟨key, fun frame ignore => key _ _ frame ignore (Or.inl (by decide))⟩

theorem c4_witness :
    ((union_bounds Region.empty Region.empty).left ≥ (union_bounds Region.empty Region.empty).right ∨
      (union_bounds Region.empty Region.empty).top ≥ (union_bounds Region.empty Region.empty).bottom)
    ∧ calculate_overlap Region.empty Region.empty (some (5, 5)) (some (Region.rect 0 0 2 2)) = 1 :=
  ⟨by decide, c4_degenerate_union_overlap_one.1 Region.empty Region.empty (some (5, 5))
    (some (Region.rect 0 0 2 2)) (by decide)⟩

/-- C5: the overlap is symmetric in the two regions, for every frame
and every optional ignore region. -/
theorem c5_overlap_symmetric (r1 r2 : Region) (frame : Option (Int × Int))
    (ignore : Option Region) :
    calculate_overlap r1 r2 frame ignore = calculate_overlap r2 r1 frame ignore := by
  have hub : union_bounds r2 r1 = union_bounds r1 r2 := (union_bounds_comm r1 r2).symm
  have hrb : raster_bounds_of r2 r1 frame = raster_bounds_of r1 r2 frame :=
    (raster_bounds_of_comm r1 r2 frame).symm
  have hcnt : overlap_counts_of r2 r1 frame ignore = overlap_counts_of r1 r2 frame ignore := by
    unfold overlap_counts_of
    rw [hrb]
    exact (overlapCounts_comm _ _ _ (region_raster_size r1 r2 _)).symm
  simp only [calculate_overlap, hub, hrb, hcnt]

/-- C6: the overlap always lies in `[0, 1]`, and when the counting
stage is reached (neither the union box nor the raster window is
degenerate) with a union pixel count of zero, the result is exactly
0.0 instead of a division fault. -/
theorem c6_overlap_range (r1 r2 : Region) (frame : Option (Int × Int))
    (ignore : Option Region) :
    (0 ≤ calculate_overlap r1 r2 frame ignore ∧ calculate_overlap r1 r2 frame ignore ≤ 1)
    ∧ (¬((union_bounds r1 r2).left ≥ (union_bounds r1 r2).right ∨
          (union_bounds r1 r2).top ≥ (union_bounds r1 r2).bottom) →
       ¬((raster_bounds_of r1 r2 frame).left ≥ (raster_bounds_of r1 r2 frame).right ∨
          (raster_bounds_of r1 r2 frame).top ≥ (raster_bounds_of r1 r2 frame).bottom) →
       (overlap_counts_of r1 r2 frame ignore).2 = 0 →
       calculate_overlap r1 r2 frame ignore = 0) := by
  constructor
  · by_cases h1 : (union_bounds r1 r2).left ≥ (union_bounds r1 r2).right ∨
        (union_bounds r1 r2).top ≥ (union_bounds r1 r2).bottom
    · simp only [calculate_overlap, if_pos h1]
      norm_num
    by_cases h2 : (raster_bounds_of r1 r2 frame).left ≥ (raster_bounds_of r1 r2 frame).right ∨
        (raster_bounds_of r1 r2 frame).top ≥ (raster_bounds_of r1 r2 frame).bottom
    · simp only [calculate_overlap, if_neg h1, if_pos h2]
      norm_num
    by_cases h3 : (overlap_counts_of r1 r2 frame ignore).2 > 0
    · simp only [calculate_overlap, if_neg h1, if_neg h2, if_pos h3]
      have hle : (overlap_counts_of r1 r2 frame ignore).1
          ≤ (overlap_counts_of r1 r2 frame ignore).2 := by
        unfold overlap_counts_of
        exact overlapCounts_le _ _ _
      constructor
      · positivity
      · rw [div_le_one (by exact_mod_cast h3)]
        exact_mod_cast hle
    · simp only [calculate_overlap, if_neg h1, if_neg h2, if_neg h3]
      norm_num
  · intro h1 h2 hz
    simp only [calculate_overlap, if_neg h1, if_neg h2]
    rw [if_neg (by omega)]

theorem c6_witness :
    (0 ≤ calculate_overlap (Region.rect (-6) 0 6 2) (Region.rect (-6) 0 6 2) none none
      ∧ calculate_overlap (Region.rect (-6) 0 6 2) (Region.rect (-6) 0 6 2) none none ≤ 1)
    ∧ calculate_overlap (Region.rect (-6) 0 6 2) (Region.rect (-6) 0 6 2) none none = 0 :=
  ⟨(c6_overlap_range (Region.rect (-6) 0 6 2) (Region.rect (-6) 0 6 2) none none).1,
   (c6_overlap_range (Region.rect (-6) 0 6 2) (Region.rect (-6) 0 6 2) none none).2
     (by decide) (by decide) (by decide)⟩

/-- C7 (counterexample to the unrestricted claim): for two
empty-variant regions the union box is degenerate and the overlap is
1.0, even though the supplied ignore region is not the empty variant
and rasterizes to 1 on every pixel of the (degenerate) raster window.
The claim as stated demands 0.0 here. -/
theorem c7_counterexample :
    (Region.rect 0 0 1 1 ≠ Region.empty)
    ∧ (∀ i, i < (region_raster (Region.rect 0 0 1 1)
          (raster_bounds_of Region.empty Region.empty none)).size →
        ravelAt (region_raster (Region.rect 0 0 1 1)
          (raster_bounds_of Region.empty Region.empty none)) i = 1)
    ∧ calculate_overlap Region.empty Region.empty none (some (Region.rect 0 0 1 1)) = 1
    ∧ (1 : ℚ) ≠ 0 := by
  refine ⟨fun h => Region.noConfusion h, by decide, ?_, one_ne_zero⟩
  simp only [calculate_overlap]
  rw [if_pos (Or.inl (by decide))]

/-- C7 (amended): if the union of the two bounding boxes is
non-degenerate and the supplied ignore region, which is not the empty
variant, rasterizes to 1 on every pixel of the raster window, then the
overlap is 0.0 (every pixel is skipped and the union count is 0). -/
theorem c7_full_ignore_overlap_zero (r1 r2 : Region) (frame : Option (Int × Int)) (ig : Region)
    (hne : ig ≠ Region.empty)
    (hnd : ¬((union_bounds r1 r2).left ≥ (union_bounds r1 r2).right ∨
            (union_bounds r1 r2).top ≥ (union_bounds r1 r2).bottom))
    (hcov : ∀ i, i < (region_raster ig (raster_bounds_of r1 r2 frame)).size →
        ravelAt (region_raster ig (raster_bounds_of r1 r2 frame)) i = 1) :
    calculate_overlap r1 r2 frame (some ig) = 0 := by
  by_cases h2 : (raster_bounds_of r1 r2 frame).left ≥ (raster_bounds_of r1 r2 frame).right ∨
      (raster_bounds_of r1 r2 frame).top ≥ (raster_bounds_of r1 r2 frame).bottom
  · simp only [calculate_overlap, if_neg hnd, if_pos h2]
  · have hig : ignore_raster_of (some ig) (raster_bounds_of r1 r2 frame)
        = some (region_raster ig (raster_bounds_of r1 r2 frame)) := by
      cases ig with
      | empty => exact absurd rfl hne
      | rect a b c d => rfl
      | poly p => rfl
      | mask m o => rfl
    have hcnt : overlap_counts_of r1 r2 frame (some ig) = (0, 0) := by
      simp only [overlap_counts_of]
      rw [hig]
      simp only [overlapCounts]
      refine foldl_inv (P := fun st => st = ((0, 0) : Nat × Nat)) _ _ _ rfl ?_
      intro a b hb ha
      subst ha
      have hbsz := List.mem_range.mp hb
      have hb3 : ravelAt (region_raster ig (raster_bounds_of r1 r2 frame)) b = 1 :=
        hcov b (by rw [region_raster_size ig r1]; exact hbsz)
      simp [countStepIgnore, hb3]
    simp only [calculate_overlap, if_neg hnd, if_neg h2, hcnt]
    norm_num

theorem c7_witness :
    calculate_overlap (Region.rect 0 0 2 2) (Region.rect 0 0 2 2) none
      (some (Region.rect 0 0 2 2)) = 0 :=
  c7_full_ignore_overlap_zero (Region.rect 0 0 2 2) (Region.rect 0 0 2 2) none
    (Region.rect 0 0 2 2) (fun h => Region.noConfusion h) (by decide) (by decide)

/-! ## Batch overlap (C9) -/

/-- Pairwise overlaps of two lists, in input order (specification-side
description of the batch result without an ignore list). -/
def pairOverlaps (bounds : Option (Int × Int)) : List Region → List Region → List ℚ
  | a :: as, b :: bs => calculate_overlap a b bounds none :: pairOverlaps bounds as bs
  | _, _ => []

/-- Pairwise overlaps of two lists with a positionally matched ignore
list, in input order (specification-side description). -/
def pairOverlapsIg (bounds : Option (Int × Int)) :
    List Region → List Region → List Region → List ℚ
  | a :: as, b :: bs, g :: gs =>
    calculate_overlap a b bounds (some g) :: pairOverlapsIg bounds as bs gs
  | _, _, _ => []

theorem mapEnumFrom_pairIg (bounds : Option (Int × Int)) (first : List Region) :
    ∀ (second ig : List Region) (n : Nat), first.length = second.length →
    n + first.length ≤ ig.length →
    ((first.zip second).enumFrom n).map
        (fun p => calculate_overlap p.2.1 p.2.2 bounds (some (ig.getD p.1 Region.empty)))
      = pairOverlapsIg bounds first second (ig.drop n) := by
  induction first with
  | nil =>
    intro second ig n _ _
    simp [pairOverlapsIg]
  | cons a as ih =>
    intro second ig n hlen hig
    cases second with
    | nil => simp at hlen
    | cons b bs =>
      have hn : n < ig.length := by
        simp only [List.length_cons] at hig
        omega
      rw [List.zip_cons_cons, List.enumFrom_cons, List.map_cons,
        List.drop_eq_getElem_cons hn, List.getD_eq_getElem ig Region.empty hn]
      simp only [pairOverlapsIg]
      refine congrArg _ ?_
      have := ih bs ig (n + 1) (by simpa using hlen)
        (by simp only [List.length_cons] at hig; omega)
      simpa using this

theorem mapZip_pair (bounds : Option (Int × Int)) (first : List Region) :
    ∀ second : List Region, first.length = second.length →
    (first.zip second).map (fun p => calculate_overlap p.1 p.2 bounds none)
      = pairOverlaps bounds first second := by
  induction first with
  | nil =>
    intro second _
    simp [pairOverlaps]
  | cons a as ih =>
    intro second hlen
    cases second with
    | nil => simp at hlen
    | cons b bs =>
      rw [List.zip_cons_cons, List.map_cons]
      simp only [pairOverlaps]
      exact congrArg _ (ih bs (by simpa using hlen))

/-- C9: the batch overlap fails with a length-mismatch error exactly
when the two lists differ in length or an ignore list of a different
length than the first list is supplied, and returns no partial
result; otherwise it returns the pairwise overlaps in input order. -/
theorem c9_batch_overlap (first second : List Region) (bounds : Option (Int × Int))
    (ignore : Option (List Region)) :
    ((∃ e, calculate_overlaps first second bounds ignore = Except.error e) ↔
      (first.length ≠ second.length ∨
        ∃ ig, ignore = some ig ∧ first.length ≠ ig.length))
    ∧ (first.length = second.length →
        (∀ ig, ignore = some ig → first.length = ig.length →
          calculate_overlaps first second bounds ignore
            = Except.ok (pairOverlapsIg bounds first second ig))
        ∧ (ignore = none →
          calculate_overlaps first second bounds ignore
            = Except.ok (pairOverlaps bounds first second))) := by
  constructor
  · constructor
    · intro he
      obtain ⟨e, he⟩ := he
      by_cases h1 : first.length = second.length
      · right
        cases ignore with
        | none => simp [calculate_overlaps, h1] at he
        | some ig =>
          refine ⟨ig, rfl, ?_⟩
          intro h2
          have h2' : second.length = ig.length := by omega
          simp [calculate_overlaps, h1, h2'] at he
      · exact Or.inl h1
    · intro hor
      rcases hor with h1 | ⟨ig, hig, h2⟩
      · exact ⟨"List not of the same size", by simp [calculate_overlaps, h1]⟩
      · subst hig
        by_cases h1 : first.length = second.length
        · have h2' : second.length ≠ ig.length := by omega
          exact ⟨"List not of the same size", by simp [calculate_overlaps, h1, h2']⟩
        · exact ⟨"List not of the same size", by simp [calculate_overlaps, h1]⟩
  · intro h1
    constructor
    · intro ig hig h2
      subst hig
      simp only [calculate_overlaps]
      rw [if_neg (show ¬ first.length ≠ second.length by omega),
        if_neg (show ¬ first.length ≠ ig.length by omega)]
      refine congrArg _ ?_
      have := mapEnumFrom_pairIg bounds first second ig 0 h1 (by omega)
      simpa [List.enum_eq_enumFrom] using this
    · intro hig
      subst hig
      simp only [calculate_overlaps]
      rw [if_neg (show ¬ first.length ≠ second.length by omega)]
      exact congrArg _ (mapZip_pair bounds first second h1)

theorem c9_witness :
    calculate_overlaps [Region.empty] [Region.empty, Region.empty] none none
      = Except.error "List not of the same size"
    ∧ calculate_overlaps [Region.rect 0 0 2 2] [Region.rect 0 0 2 2] none
        (some [Region.rect 1 1 2 2])
      = Except.ok (pairOverlapsIg none [Region.rect 0 0 2 2] [Region.rect 0 0 2 2]
          [Region.rect 1 1 2 2]) :=
  ⟨by simp [calculate_overlaps],
   ((c9_batch_overlap [Region.rect 0 0 2 2] [Region.rect 0 0 2 2] none
      (some [Region.rect 1 1 2 2])).2 (by decide)).1 [Region.rect 1 1 2 2] rfl (by decide)⟩

/-! ## Characterizing `mask_bounds` (C3) -/

theorem foldl_min_le_init (l : List Int) (a : Int) : l.foldl min a ≤ a := by
  induction l generalizing a with
  | nil => exact le_refl a
  | cons x xs ih => exact le_trans (ih (min a x)) (min_le_left a x)

theorem foldl_min_le_mem (l : List Int) (b : Int) (hb : b ∈ l) : ∀ a, l.foldl min a ≤ b := by
  induction l with
  | nil => simp at hb
  | cons x xs ih =>
    intro a
    rcases List.mem_cons.mp hb with rfl | hb'
    · exact le_trans (foldl_min_le_init xs (min a b)) (min_le_right a b)
    · exact ih hb' (min a x)

theorem foldl_min_choice (l : List Int) (a : Int) : l.foldl min a = a ∨ l.foldl min a ∈ l := by
  induction l generalizing a with
  | nil => exact Or.inl rfl
  | cons x xs ih =>
    rw [List.foldl_cons]
    rcases ih (min a x) with h | h
    · rcases min_choice a x with hm | hm
      · exact Or.inl (by rw [h, hm])
      · exact Or.inr (by rw [h, hm]; exact List.mem_cons_self _ _)
    · exact Or.inr (List.mem_cons_of_mem _ h)

theorem foldl_max_init_le (l : List Int) (a : Int) : a ≤ l.foldl max a := by
  induction l generalizing a with
  | nil => exact le_refl a
  | cons x xs ih => exact le_trans (le_max_left a x) (ih (max a x))

theorem foldl_max_mem_le (l : List Int) (b : Int) (hb : b ∈ l) : ∀ a, b ≤ l.foldl max a := by
  induction l with
  | nil => simp at hb
  | cons x xs ih =>
    intro a
    rcases List.mem_cons.mp hb with rfl | hb'
    · exact le_trans (le_max_right a b) (foldl_max_init_le xs (max a b))
    · exact ih hb' (max a x)

theorem foldl_max_choice (l : List Int) (a : Int) : l.foldl max a = a ∨ l.foldl max a ∈ l := by
  induction l generalizing a with
  | nil => exact Or.inl rfl
  | cons x xs ih =>
    rw [List.foldl_cons]
    rcases ih (max a x) with h | h
    · rcases max_choice a x with hm | hm
      · exact Or.inl (by rw [h, hm])
      · exact Or.inr (by rw [h, hm]; exact List.mem_cons_self _ _)
    · exact Or.inr (List.mem_cons_of_mem _ h)

/-- Row coordinates (as integers) of the set pixels of `P`. -/
def setRows (m : Grid) (P : List (Nat × Nat)) : List Int :=
  (P.filter fun p => m.px p.1 p.2 != 0).map fun p => (p.1 : Int)

/-- Column coordinates (as integers) of the set pixels of `P`. -/
def setCols (m : Grid) (P : List (Nat × Nat)) : List Int :=
  (P.filter fun p => m.px p.1 p.2 != 0).map fun p => (p.2 : Int)

theorem mbFold_spec (m : Grid) (P : List (Nat × Nat)) : ∀ st : MBState,
    P.foldl (maskBoundsStep m) st =
      ⟨(setRows m P).foldl min st.top, (setRows m P).foldl max st.bottom,
       (setCols m P).foldl min st.left, (setCols m P).foldl max st.right⟩ := by
  induction P with
  | nil => intro st; rfl
  | cons p P ih =>
    intro st
    by_cases hp : m.px p.1 p.2 ≠ 0
    · have hr : setRows m (p :: P) = ((p.1 : Int)) :: setRows m P := by
        simp [setRows, List.filter_cons, hp]
      have hc : setCols m (p :: P) = ((p.2 : Int)) :: setCols m P := by
        simp [setCols, List.filter_cons, hp]
      rw [List.foldl_cons, hr, hc, List.foldl_cons, List.foldl_cons, List.foldl_cons,
        List.foldl_cons, maskBoundsStep, if_pos hp]
      exact ih _
    · have hr : setRows m (p :: P) = setRows m P := by
        simp [setRows, List.filter_cons, hp]
      have hc : setCols m (p :: P) = setCols m P := by
        simp [setCols, List.filter_cons, hp]
      rw [List.foldl_cons, hr, hc, maskBoundsStep, if_neg hp]
      exact ih st

theorem pixList_mem (m : Grid) (p : Nat × Nat) : p ∈ pixList m ↔ p.1 < m.h ∧ p.2 < m.w := by
  simp only [pixList, List.mem_flatMap, List.mem_map, List.mem_range]
  constructor
  · rintro ⟨i, hi, j, hj, rfl⟩
    exact ⟨hi, hj⟩
  · rintro ⟨h1, h2⟩
    exact ⟨p.1, h1, p.2, h2, rfl⟩

theorem mem_setRows (m : Grid) {i j : Nat} (hi : i < m.h) (hj : j < m.w)
    (hp : m.px i j ≠ 0) : (i : Int) ∈ setRows m (pixList m) := by
  simp only [setRows, List.mem_map]
  refine ⟨(i, j), ?_, rfl⟩
  rw [List.mem_filter]
  exact ⟨(pixList_mem m (i, j)).mpr ⟨hi, hj⟩, by simpa using hp⟩

theorem mem_setCols (m : Grid) {i j : Nat} (hi : i < m.h) (hj : j < m.w)
    (hp : m.px i j ≠ 0) : (j : Int) ∈ setCols m (pixList m) := by
  simp only [setCols, List.mem_map]
  refine ⟨(i, j), ?_, rfl⟩
  rw [List.mem_filter]
  exact ⟨(pixList_mem m (i, j)).mpr ⟨hi, hj⟩, by simpa using hp⟩

theorem setRows_mem_inv (m : Grid) {v : Int} (hv : v ∈ setRows m (pixList m)) :
    ∃ i j, i < m.h ∧ j < m.w ∧ m.px i j ≠ 0 ∧ (i : Int) = v := by
  simp only [setRows, List.mem_map] at hv
  obtain ⟨p, hp, rfl⟩ := hv
  rw [List.mem_filter] at hp
  obtain ⟨hmem, hne⟩ := hp
  have hlt := (pixList_mem m p).mp hmem
  exact ⟨p.1, p.2, hlt.1, hlt.2, by simpa using hne, rfl⟩

theorem setCols_mem_inv (m : Grid) {v : Int} (hv : v ∈ setCols m (pixList m)) :
    ∃ i j, i < m.h ∧ j < m.w ∧ m.px i j ≠ 0 ∧ (j : Int) = v := by
  simp only [setCols, List.mem_map] at hv
  obtain ⟨p, hp, rfl⟩ := hv
  rw [List.mem_filter] at hp
  obtain ⟨hmem, hne⟩ := hp
  have hlt := (pixList_mem m p).mp hmem
  exact ⟨p.1, p.2, hlt.1, hlt.2, by simpa using hne, rfl⟩

theorem mask_bounds_empty (m : Grid) (hz : ∀ i j, i < m.h → j < m.w → m.px i j = 0) :
    mask_bounds m = ⟨0, 0, 0, 0⟩ := by
  have hfil : (pixList m).filter (fun p => m.px p.1 p.2 != 0) = [] := by
    rw [List.filter_eq_nil_iff]
    intro p hp
    have hlt := (pixList_mem m p).mp hp
    simp [hz p.1 p.2 hlt.1 hlt.2]
  have h1 : setRows m (pixList m) = [] := by simp [setRows, hfil]
  have h2 : setCols m (pixList m) = [] := by simp [setCols, hfil]
  simp only [mask_bounds]
  rw [mbFold_spec, h1, h2]
  rfl

theorem mask_bounds_nonempty (m : Grid)
    (hh : (m.h : Int) ≤ II32MAX) (hw : (m.w : Int) ≤ II32MAX)
    {i0 j0 : Nat} (hi0 : i0 < m.h) (hj0 : j0 < m.w) (hp0 : m.px i0 j0 ≠ 0) :
    mask_bounds m =
      ⟨(setCols m (pixList m)).foldl min II32MAX, (setRows m (pixList m)).foldl min II32MAX,
       (setCols m (pixList m)).foldl max II32MIN, (setRows m (pixList m)).foldl max II32MIN⟩ := by
  have hmem0 : (i0 : Int) ∈ setRows m (pixList m) := mem_setRows m hi0 hj0 hp0
  have htople : (setRows m (pixList m)).foldl min II32MAX ≤ i0 :=
    foldl_min_le_mem _ _ hmem0 _
  have htopub : ((i0 : Int)) < II32MAX := by
    have h1 : ((i0 : Int)) < (m.h : Int) := by exact_mod_cast hi0
    exact lt_of_lt_of_le h1 hh
  have hne : ¬ ((setRows m (pixList m)).foldl min II32MAX = II32MAX) := by
    intro h
    rw [h] at htople
    omega
  simp only [mask_bounds]
  rw [mbFold_spec]
  exact if_neg hne

/-- C3 (amended): for a mask with no set pixel, the mask bounds are the
offset-translated `(0,0,0,0)`, i.e. `(ox, oy, ox, oy)`; for a mask with
at least one set pixel (and dimensions below the int32 sentinel), the
mask bounds are the tight box of set pixels translated by the offset:
every set pixel lies inside the box and each of the four box edges is
attained by a set pixel. -/
theorem c3_mask_bounds_tight (m : Grid) (o : Int × Int)
    (hh : (m.h : Int) ≤ II32MAX) (hw : (m.w : Int) ≤ II32MAX) :
    ((∀ i j, i < m.h → j < m.w → m.px i j = 0) →
      bounds_mask m o = ⟨o.1, o.2, o.1, o.2⟩)
    ∧ (∀ i0 j0, i0 < m.h → j0 < m.w → m.px i0 j0 ≠ 0 →
        (∀ i j, i < m.h → j < m.w → m.px i j ≠ 0 →
          (bounds_mask m o).left ≤ (j : Int) + o.1 ∧ (j : Int) + o.1 ≤ (bounds_mask m o).right ∧
          (bounds_mask m o).top ≤ (i : Int) + o.2 ∧ (i : Int) + o.2 ≤ (bounds_mask m o).bottom)
        ∧ (∃ i j, i < m.h ∧ j < m.w ∧ m.px i j ≠ 0 ∧ (j : Int) + o.1 = (bounds_mask m o).left)
        ∧ (∃ i j, i < m.h ∧ j < m.w ∧ m.px i j ≠ 0 ∧ (i : Int) + o.2 = (bounds_mask m o).top)
        ∧ (∃ i j, i < m.h ∧ j < m.w ∧ m.px i j ≠ 0 ∧ (j : Int) + o.1 = (bounds_mask m o).right)
        ∧ (∃ i j, i < m.h ∧ j < m.w ∧ m.px i j ≠ 0 ∧
            (i : Int) + o.2 = (bounds_mask m o).bottom)) := by
  constructor
  · intro hz
    simp only [bounds_mask, mask_bounds_empty m hz]
    simp
  · intro i0 j0 hi0 hj0 hp0
    have hmb := mask_bounds_nonempty m hh hw hi0 hj0 hp0
    have hL : (bounds_mask m o).left = (setCols m (pixList m)).foldl min II32MAX + o.1 := by
      simp only [bounds_mask, hmb]
    have hT : (bounds_mask m o).top = (setRows m (pixList m)).foldl min II32MAX + o.2 := by
      simp only [bounds_mask, hmb]
    have hR : (bounds_mask m o).right = (setCols m (pixList m)).foldl max II32MIN + o.1 := by
      simp only [bounds_mask, hmb]
    have hB : (bounds_mask m o).bottom = (setRows m (pixList m)).foldl max II32MIN + o.2 := by
      simp only [bounds_mask, hmb]
    refine ⟨?_, ?_, ?_, ?_, ?_⟩
    · intro i j hi hj hp
      have h1 := foldl_min_le_mem _ _ (mem_setCols m hi hj hp) II32MAX
      have h2 := foldl_max_mem_le _ _ (mem_setCols m hi hj hp) II32MIN
      have h3 := foldl_min_le_mem _ _ (mem_setRows m hi hj hp) II32MAX
      have h4 := foldl_max_mem_le _ _ (mem_setRows m hi hj hp) II32MIN
      rw [hL, hT, hR, hB]
      omega
    · rcases foldl_min_choice (setCols m (pixList m)) II32MAX with h | h
      · exfalso
        have hle := foldl_min_le_mem _ _ (mem_setCols m hi0 hj0 hp0) II32MAX
        have hub : ((j0 : Int)) < II32MAX := by
          have h1 : ((j0 : Int)) < (m.w : Int) := by exact_mod_cast hj0
          exact lt_of_lt_of_le h1 hw
        rw [h] at hle
        omega
      · obtain ⟨i, j, hi, hj, hp, hjv⟩ := setCols_mem_inv m h
        exact ⟨i, j, hi, hj, hp, by rw [hL, hjv]⟩
    · rcases foldl_min_choice (setRows m (pixList m)) II32MAX with h | h
      · exfalso
        have hle := foldl_min_le_mem _ _ (mem_setRows m hi0 hj0 hp0) II32MAX
        have hub : ((i0 : Int)) < II32MAX := by
          have h1 : ((i0 : Int)) < (m.h : Int) := by exact_mod_cast hi0
          exact lt_of_lt_of_le h1 hh
        rw [h] at hle
        omega
      · obtain ⟨i, j, hi, hj, hp, hiv⟩ := setRows_mem_inv m h
        exact ⟨i, j, hi, hj, hp, by rw [hT, hiv]⟩
    · rcases foldl_max_choice (setCols m (pixList m)) II32MIN with h | h
      · exfalso
        have hge := foldl_max_mem_le _ _ (mem_setCols m hi0 hj0 hp0) II32MIN
        rw [h] at hge
        have : (0 : Int) ≤ (j0 : Int) := Int.ofNat_nonneg j0
        simp only [II32MIN] at hge
        omega
      · obtain ⟨i, j, hi, hj, hp, hjv⟩ := setCols_mem_inv m h
        exact ⟨i, j, hi, hj, hp, by rw [hR, hjv]⟩
    · rcases foldl_max_choice (setRows m (pixList m)) II32MIN with h | h
      · exfalso
        have hge := foldl_max_mem_le _ _ (mem_setRows m hi0 hj0 hp0) II32MIN
        rw [h] at hge
        have : (0 : Int) ≤ (i0 : Int) := Int.ofNat_nonneg i0
        simp only [II32MIN] at hge
        omega
      · obtain ⟨i, j, hi, hj, hp, hiv⟩ := setRows_mem_inv m h
        exact ⟨i, j, hi, hj, hp, by rw [hB, hiv]⟩

/-- A mask with `2^31` rows, one column, and its single set pixel at
row `2^31 - 1 = 2147483647`, the int32 sentinel of `mask_bounds`. -/
def sentinelMask : Grid := ⟨2147483648, 1, fun i _ => if i = 2147483647 then 1 else 0⟩

theorem mask_bounds_eq_of_top (m : Grid)
    (h : ((pixList m).foldl (maskBoundsStep m)
      ⟨II32MAX, II32MIN, II32MAX, II32MIN⟩).top = II32MAX) :
    mask_bounds m = ⟨0, 0, 0, 0⟩ := by
  simp only [mask_bounds]
  exact if_pos h

theorem mask_bounds_all_sentinel (m : Grid)
    (h : ∀ v ∈ setRows m (pixList m), v = II32MAX) :
    mask_bounds m = ⟨0, 0, 0, 0⟩ := by
  have htop : (setRows m (pixList m)).foldl min II32MAX = II32MAX := by
    rcases foldl_min_choice (setRows m (pixList m)) II32MAX with hc | hc
    · exact hc
    · exact h _ hc
  have e1 : ((pixList m).foldl (maskBoundsStep m)
      ⟨II32MAX, II32MIN, II32MAX, II32MIN⟩).top
      = (setRows m (pixList m)).foldl min II32MAX := by
    rw [mbFold_spec]
  exact mask_bounds_eq_of_top m (e1.trans htop)

theorem mask_bounds_sentinel : mask_bounds sentinelMask = ⟨0, 0, 0, 0⟩ := by
  refine mask_bounds_all_sentinel sentinelMask ?_
  intro v hv
  obtain ⟨i, j, hi, hj, hp, hiv⟩ := setRows_mem_inv sentinelMask hv
  have hieq : i = 2147483647 := by
    by_contra hne
    exact hp (by simp [sentinelMask, hne])
  subst hieq
  rw [← hiv]
  decide

/-- C3 (counterexample to the unrestricted claim, both halves).
First divergence: the bounds of an all-zero mask with offset `(5, 7)`
are `(5, 7, 5, 7)`, the translated empty-mask convention, not
`(0, 0, 0, 0)` as the claim states.  Second divergence: a mask with
`2^31` rows whose set pixel sits at row `2147483647` — the int32
sentinel of the scan — is misreported as empty (`min` never drops
below the sentinel), so its bounds are `(0, 0, 0, 0)` instead of the
tight box `(0, 2147483647, 0, 2147483647)` of its set pixel; this is
what forces the int32-dimension hypothesis of the amended claim. -/
theorem c3_counterexample :
    (bounds_mask ⟨1, 1, fun _ _ => 0⟩ (5, 7) = ⟨5, 7, 5, 7⟩
      ∧ (⟨5, 7, 5, 7⟩ : Bounds4) ≠ ⟨0, 0, 0, 0⟩)
    ∧ (sentinelMask.px 2147483647 0 ≠ 0
      ∧ 2147483647 < sentinelMask.h ∧ 0 < sentinelMask.w
      ∧ bounds_mask sentinelMask (0, 0) = ⟨0, 0, 0, 0⟩
      ∧ (⟨0, 0, 0, 0⟩ : Bounds4) ≠ ⟨0, 2147483647, 0, 2147483647⟩) := by
  refine ⟨⟨by decide, by decide⟩, by decide, by decide, by decide, ?_, by decide⟩
  simp only [bounds_mask, mask_bounds_sentinel]
  decide

theorem c3_witness :
    ((((2 : Nat) : Int) ≤ II32MAX ∧ ((3 : Nat) : Int) ≤ II32MAX)
      ∧ (1 < 2 ∧ 2 < 3 ∧ (fun i j => if i = 1 && j ≥ 1 then (1 : Nat) else 0) 1 2 ≠ 0))
    ∧ (∀ (i j : Nat), i < 2 → j < 3 →
        (if i = 1 && j ≥ 1 then (1 : Nat) else 0) ≠ 0 →
        (bounds_mask ⟨2, 3, fun i j => if i = 1 && j ≥ 1 then 1 else 0⟩ (5, 7)).left
            ≤ (j : Int) + 5 ∧
          (j : Int) + 5 ≤ (bounds_mask ⟨2, 3, fun i j => if i = 1 && j ≥ 1 then 1 else 0⟩
            (5, 7)).right ∧
          (bounds_mask ⟨2, 3, fun i j => if i = 1 && j ≥ 1 then 1 else 0⟩ (5, 7)).top
            ≤ (i : Int) + 7 ∧
          (i : Int) + 7 ≤ (bounds_mask ⟨2, 3, fun i j => if i = 1 && j ≥ 1 then 1 else 0⟩
            (5, 7)).bottom) :=
  ⟨⟨⟨by decide, by decide⟩, ⟨by decide, by decide, by decide⟩⟩,
    ((c3_mask_bounds_tight ⟨2, 3, fun i j => if i = 1 && j ≥ 1 then 1 else 0⟩ (5, 7)
      (by decide) (by decide)).2 1 2 (by decide) (by decide) (by decide)).1⟩

/-! ## Characterizing `copy_mask` (C8) -/

theorem setPx_read (g : Nat → Nat → Nat) (r c v r' c' : Nat) :
    setPx g r c v r' c' = if r' = r ∧ c' = c then v else g r' c' := by
  by_cases h1 : r' = r <;> by_cases h2 : c' = c <;> simp [setPx, h1, h2]

theorem copyMaskRow_read (m : Grid) (oxN oyN gxN gyN : Nat) (i : Nat) (r c : Nat) :
    ∀ (twN : Nat) (g : Nat → Nat → Nat),
    copyMaskRow m oxN oyN gxN gyN twN i g r c =
      if r = i + oyN ∧ oxN ≤ c ∧ c < oxN + twN then m.px (i + gyN) (c - oxN + gxN)
      else g r c := by
  intro twN
  induction twN with
  | zero =>
    intro g
    simp only [copyMaskRow, List.range_zero, List.foldl_nil]
    rw [if_neg (by omega)]
  | succ n ih =>
    intro g
    simp only [copyMaskRow, List.range_succ, List.foldl_append, List.foldl_cons, List.foldl_nil]
    rw [show (List.range n).foldl
        (fun g j => setPx g (i + oyN) (j + oxN) (m.px (i + gyN) (j + gxN))) g
        = copyMaskRow m oxN oyN gxN gyN n i g from rfl]
    rw [setPx_read]
    by_cases h1 : r = i + oyN ∧ c = n + oxN
    · rw [if_pos h1, if_pos (by omega)]
      have he : c - oxN + gxN = n + gxN := by omega
      rw [he]
    · rw [if_neg h1, ih g]
      by_cases h2 : r = i + oyN ∧ oxN ≤ c ∧ c < oxN + n
      · rw [if_pos h2, if_pos (by omega)]
      · rw [if_neg h2, if_neg (by omega)]

theorem copyMaskOuter_read (m : Grid) (oxN oyN gxN gyN twN : Nat) (r c : Nat) :
    ∀ thN : Nat,
    ((List.range thN).foldl (fun g i => copyMaskRow m oxN oyN gxN gyN twN i g)
      (fun _ _ => 0)) r c =
      if oyN ≤ r ∧ r < oyN + thN ∧ oxN ≤ c ∧ c < oxN + twN then
        m.px (r - oyN + gyN) (c - oxN + gxN)
      else 0 := by
  intro thN
  induction thN with
  | zero =>
    simp only [List.range_zero, List.foldl_nil]
    rw [if_neg (by omega)]
  | succ n ih =>
    simp only [List.range_succ, List.foldl_append, List.foldl_cons, List.foldl_nil]
    rw [copyMaskRow_read]
    by_cases h1 : r = n + oyN ∧ oxN ≤ c ∧ c < oxN + twN
    · rw [if_pos h1, if_pos (by omega)]
      have he : r - oyN + gyN = n + gyN := by omega
      rw [he]
    · rw [if_neg h1, ih]
      by_cases h2 : oyN ≤ r ∧ r < oyN + n ∧ oxN ≤ c ∧ c < oxN + twN
      · rw [if_pos h2, if_pos (by omega)]
      · rw [if_neg h2, if_neg (by omega)]

/-- C8: for a well-formed target window, `copy_mask` returns a grid of
the window's size whose cell `(r, c)` holds the source mask value at
pixel `(left + c, top + r)` when that pixel lies inside the source
mask's extent, and 0 otherwise — covering partial overlap, full
disjointness and windows larger or smaller than the mask. -/
theorem c8_copy_mask (m : Grid) (offset : Int × Int) (bounds : Bounds4)
    (hlr : bounds.left ≤ bounds.right) (htb : bounds.top ≤ bounds.bottom) :
    (copy_mask m offset bounds).h = (bounds.bottom - bounds.top + 1).toNat
    ∧ (copy_mask m offset bounds).w = (bounds.right - bounds.left + 1).toNat
    ∧ ∀ (r c : Nat), r < (bounds.bottom - bounds.top + 1).toNat →
        c < (bounds.right - bounds.left + 1).toNat →
        (copy_mask m offset bounds).px r c =
          if offset.1 ≤ bounds.left + (c : Int) ∧ bounds.left + (c : Int) < offset.1 + m.w
              ∧ offset.2 ≤ bounds.top + (r : Int) ∧ bounds.top + (r : Int) < offset.2 + m.h
          then m.px (bounds.top + (r : Int) - offset.2).toNat
            (bounds.left + (c : Int) - offset.1).toNat
          else 0 := by
  refine ⟨rfl, rfl, ?_⟩
  intro r c hr hc
  show ((List.range (min (bounds.bottom + 1) (offset.2 + (m.h : Int))
        - max offset.2 bounds.top).toNat).foldl
      (fun g i => copyMaskRow m (max offset.1 bounds.left - bounds.left).toNat
        (max offset.2 bounds.top - bounds.top).toNat
        (max offset.1 bounds.left - offset.1).toNat
        (max offset.2 bounds.top - offset.2).toNat
        (min (bounds.right + 1) (offset.1 + (m.w : Int)) - max offset.1 bounds.left).toNat i g)
      (fun _ _ => 0)) r c = _
  rw [copyMaskOuter_read]
  by_cases hcond : offset.1 ≤ bounds.left + (c : Int) ∧ bounds.left + (c : Int) < offset.1 + m.w
      ∧ offset.2 ≤ bounds.top + (r : Int) ∧ bounds.top + (r : Int) < offset.2 + m.h
  · rw [if_pos hcond, if_pos (by omega)]
    have h1 : r - (max offset.2 bounds.top - bounds.top).toNat
        + (max offset.2 bounds.top - offset.2).toNat
        = (bounds.top + (r : Int) - offset.2).toNat := by omega
    have h2 : c - (max offset.1 bounds.left - bounds.left).toNat
        + (max offset.1 bounds.left - offset.1).toNat
        = (bounds.left + (c : Int) - offset.1).toNat := by omega
    rw [h1, h2]
  · rw [if_neg hcond, if_neg (by omega)]

theorem c8_witness :
    ((0 : Int) ≤ 2 ∧ (0 : Int) ≤ 3)
    ∧ (copy_mask ⟨2, 2, fun i j => 10 * i + j + 1⟩ (3, 5) ⟨0, 4, 2, 6⟩).h = 3
    ∧ (copy_mask ⟨2, 2, fun i j => 10 * i + j + 1⟩ (3, 5) ⟨0, 4, 2, 6⟩).w = 3
    ∧ (copy_mask ⟨2, 2, fun i j => 10 * i + j + 1⟩ (3, 5) ⟨0, 4, 2, 6⟩).px 1 2 =
        (if (3 : Int) ≤ 0 + (2 : Nat) ∧ (0 : Int) + ((2 : Nat) : Int) < 3 + (2 : Nat)
            ∧ (5 : Int) ≤ 4 + (1 : Nat) ∧ (4 : Int) + ((1 : Nat) : Int) < 5 + (2 : Nat)
         then (⟨2, 2, fun i j => 10 * i + j + 1⟩ : Grid).px ((4 : Int) + ((1 : Nat) : Int) - 5).toNat
           ((0 : Int) + ((2 : Nat) : Int) - 3).toNat
         else 0) := by
  have h := c8_copy_mask ⟨2, 2, fun i j => 10 * i + j + 1⟩ (3, 5) ⟨0, 4, 2, 6⟩
    (by decide) (by decide)
  exact ⟨⟨by decide, by decide⟩, h.1, h.2.1, h.2.2 1 2 (by decide) (by decide)⟩

/-! ## Safety of `rasterize_polygon` (C10) -/

theorem buildRowStep_inv (poly : List (Int × Int)) (pixelY : Int) (count : Nat)
    (st : Nat × Nat × NodeArr) (n : Nat) (h1 : st.2.1 ≤ n)
    (h2 : st.2.2.arr.length = count) (h3 : st.2.2.oob = false) (hn : n < count) :
    (buildRowStep poly pixelY st n).2.1 ≤ n + 1
    ∧ (buildRowStep poly pixelY st n).2.2.arr.length = count
    ∧ (buildRowStep poly pixelY st n).2.2.oob = false := by
  unfold buildRowStep
  dsimp only
  split
  · unfold nodeWrite
    rw [if_pos (by omega)]
    dsimp only
    exact ⟨by omega, by simpa [List.length_set] using h2, h3⟩
  · dsimp only
    exact ⟨by omega, h2, h3⟩

theorem buildRow_inv (poly : List (Int × Int)) (count : Nat) (pixelY : Int) :
    (buildRow poly count pixelY).1 ≤ count
    ∧ (buildRow poly count pixelY).2.arr.length = count
    ∧ (buildRow poly count pixelY).2.oob = false := by
  suffices h : ∀ k, k ≤ count →
      ((List.range k).foldl (buildRowStep poly pixelY)
        (count - 1, 0, ⟨List.replicate count 0, false⟩)).2.1 ≤ k
      ∧ ((List.range k).foldl (buildRowStep poly pixelY)
        (count - 1, 0, ⟨List.replicate count 0, false⟩)).2.2.arr.length = count
      ∧ ((List.range k).foldl (buildRowStep poly pixelY)
        (count - 1, 0, ⟨List.replicate count 0, false⟩)).2.2.oob = false by
    have hc := h count (le_refl count)
    exact ⟨hc.1, hc.2.1, hc.2.2⟩
  intro k
  induction k with
  | zero =>
    intro _
    exact ⟨Nat.le_refl 0, List.length_replicate count 0, rfl⟩
  | succ n ih =>
    intro hn
    obtain ⟨h1, h2, h3⟩ := ih (by omega)
    rw [List.range_succ, List.foldl_append, List.foldl_cons, List.foldl_nil]
    exact buildRowStep_inv poly pixelY count _ n h1 h2 h3 (by omega)

theorem writePx_oob (height width : Nat) (s : PolyState) (r : Nat) (c : Int)
    (hs : s.oob = false) (hr : r < height) (hc0 : 0 ≤ c) (hcw : c < (width : Int)) :
    (writePx height width s r c).oob = false := by
  unfold writePx
  rw [if_pos (by simp [hc0, hcw, hr])]
  exact hs

theorem intRange_mem {a b j : Int} (hj : j ∈ intRange a b) : a ≤ j ∧ j ≤ b := by
  simp only [intRange, List.mem_map, List.mem_range] at hj
  obtain ⟨k, hk, rfl⟩ := hj
  omega

theorem writeSpan_oob (height width : Nat) (r : Nat) (a b : Int) (s : PolyState)
    (hs : s.oob = false) (hr : r < height) (ha : 0 ≤ a) (hb : b ≤ (width : Int) - 1) :
    (writeSpan height width r a b s).oob = false := by
  unfold writeSpan
  refine foldl_inv (P := fun s : PolyState => s.oob = false) _ _ _ hs ?_
  intro s' j hj hs'
  obtain ⟨h1, h2⟩ := intRange_mem hj
  exact writePx_oob height width s' r j hs' hr (le_trans ha h1) (by omega)

theorem fillRowGo_oob (height width : Nat) (pixelY : Nat) (nx : List Int)
    (hr : pixelY < height) :
    ∀ (fuel nodes i : Nat) (s : PolyState), nodes - i ≤ fuel → s.oob = false →
      (fillRowGo height width nodes pixelY nx i s).oob = false := by
  intro fuel
  induction fuel with
  | zero =>
    intro nodes i s hf hs
    rw [fillRowGo]
    rw [dif_neg (by omega)]
    exact hs
  | succ n ih =>
    intro nodes i s hf hs
    rw [fillRowGo]
    by_cases h : i + 1 < nodes
    · rw [dif_pos h]
      dsimp only
      split
      · exact hs
      · split
        · exact ih nodes (i + 1) s (by omega) hs
        · split
          · refine ih nodes (i + 2) _ (by omega) ?_
            exact writeSpan_oob height width pixelY _ _ s hs hr (le_max_right _ _)
              (min_le_right _ _)
          · exact ih nodes (i + 2) s (by omega) hs
    · rw [dif_neg h]
      exact hs

/-- C10: on every polygon with at least one vertex and every
well-formed bounds window, the polygon rasterization is total and
memory-safe: no store into the `nodeX` intercept array goes past its
`N` entries (at most `N` intercepts are produced per scanline), no
pixel store lands outside the declared grid (fill spans are clamped to
`[0, width-1]` and rows range over `[0, height-1]`), and the returned
grid has the declared window size. -/
theorem c10_polygon_raster_safe (data : List (Int × Int)) (bounds : Bounds4)
    (hn : 1 ≤ data.length) (hlr : bounds.left ≤ bounds.right)
    (htb : bounds.top ≤ bounds.bottom) :
    (rasterize_polygon data bounds).oobPx = false
    ∧ (rasterize_polygon data bounds).oobNode = false
    ∧ (∀ pixelY : Int,
        (buildRow (data.map fun p => (p.1 - bounds.left, p.2 - bounds.top))
          data.length pixelY).1 ≤ data.length)
    ∧ (rasterize_polygon data bounds).h = (bounds.bottom - bounds.top + 1).toNat
    ∧ (rasterize_polygon data bounds).w = (bounds.right - bounds.left + 1).toNat := by
  have hfold : ∀ (height width : Nat) (polygon : List (Int × Int)) (count : Nat),
      ((List.range height).foldl (rasterRowPoly polygon count height width)
        (⟨fun _ _ => 0, false⟩, false)).1.oob = false
      ∧ ((List.range height).foldl (rasterRowPoly polygon count height width)
        (⟨fun _ _ => 0, false⟩, false)).2 = false := by
    intro height width polygon count
    refine foldl_inv (P := fun st : PolyState × Bool => st.1.oob = false ∧ st.2 = false)
      _ _ _ ⟨rfl, rfl⟩ ?_
    intro st pixelY hmem hst
    have hY : pixelY < height := List.mem_range.mp hmem
    unfold rasterRowPoly
    dsimp only
    refine ⟨?_, ?_⟩
    · exact fillRowGo_oob height width pixelY _ hY (buildRow polygon count (pixelY : Int)).1
        (buildRow polygon count (pixelY : Int)).1 0 st.1 (by omega) hst.1
    · simp [hst.2, (buildRow_inv polygon count (pixelY : Int)).2.2]
  refine ⟨(hfold _ _ _ _).1, (hfold _ _ _ _).2, ?_, rfl, rfl⟩
  intro pixelY
  exact (buildRow_inv _ _ pixelY).1

theorem c10_witness :
    (1 ≤ ([((0 : Int), (0 : Int)), (4, 0), (0, 4)] : List (Int × Int)).length
      ∧ (0 : Int) ≤ 4 ∧ (0 : Int) ≤ 4)
    ∧ (rasterize_polygon [(0, 0), (4, 0), (0, 4)] ⟨0, 0, 4, 4⟩).oobPx = false
    ∧ (rasterize_polygon [(0, 0), (4, 0), (0, 4)] ⟨0, 0, 4, 4⟩).oobNode = false
    ∧ (rasterize_polygon [(0, 0), (4, 0), (0, 4)] ⟨0, 0, 4, 4⟩).h = 5
    ∧ (rasterize_polygon [(0, 0), (4, 0), (0, 4)] ⟨0, 0, 4, 4⟩).w = 5 := by
  have h := c10_polygon_raster_safe [(0, 0), (4, 0), (0, 4)] ⟨0, 0, 4, 4⟩
    (by decide) (by decide) (by decide)
  exact ⟨⟨by decide, by decide, by decide⟩, h.1, h.2.1,
    h.2.2.2.1.trans (by decide), h.2.2.2.2.trans (by decide)⟩

/-- C1 (code bug): the rectangle `(x, y, w, h) = (-6, 0, 6, 2)` has
positive extents, hence is non-empty, yet its self-overlap with no
frame (and no ignore region) is 0.0 instead of 1.0: the raster window
is the rectangle's own box `(-6, 0, -1, 1)` and `rasterize_rectangle`
clips with `min(bounds.right, ...) = -1`, so the fill slice
`[left : right + 1] = [0 : 0]` is empty and both rasters are
all-zero, giving a union count of 0. -/
theorem c1_self_overlap_bug :
    ((0 : Int) < 6 ∧ (0 : Int) < 2)
    ∧ calculate_overlap (Region.rect (-6) 0 6 2) (Region.rect (-6) 0 6 2) none none = 0 := by
  refine ⟨⟨by decide, by decide⟩, ?_⟩
  have hcnt : overlap_counts_of (Region.rect (-6) 0 6 2) (Region.rect (-6) 0 6 2) none none
      = (0, 0) := by decide
  simp only [calculate_overlap]
  rw [if_neg (by decide), if_neg (by decide), hcnt]
  simp

/-- C2 (code bug): for the well-formed window `(-6, 0, -1, 1)` and the
rectangle `(x, y, w, h) = (-6, 0, 6, 2)`, whose pixel box
`[-6, -1] × [0, 1]` covers the whole window, the returned grid has the
declared 2×6 size but every cell is 0 — the claim demands a 1 in every
cell whose pixel lies in the rectangle's box.  The cause is the clip
`right = min(bounds.right, x + w - 1 - bounds.left) = -1`, which makes
the numpy fill slice `[0 : 0]` empty for windows with a negative right
edge. -/
theorem c2_rasterize_rectangle_bug :
    (rasterize_rectangle (-6) 0 6 2 ⟨-6, 0, -1, 1⟩).h = 2
    ∧ (rasterize_rectangle (-6) 0 6 2 ⟨-6, 0, -1, 1⟩).w = 6
    ∧ (∀ (r : Nat), r < 2 → ∀ (c : Nat), c < 6 →
        (rasterize_rectangle (-6) 0 6 2 ⟨-6, 0, -1, 1⟩).px r c = 0)
    ∧ (∀ (r : Nat), r < 2 → ∀ (c : Nat), c < 6 →
        ((-6 : Int) ≤ -6 + (c : Int) ∧ (-6 : Int) + (c : Int) ≤ -6 + 6 - 1
          ∧ (0 : Int) ≤ 0 + (r : Int) ∧ (0 : Int) + (r : Int) ≤ 0 + 2 - 1)) :=
  ⟨rfl, rfl, by decide, by decide⟩
